import Mathlib

set_option autoImplicit false
set_option maxRecDepth 100000

namespace MiniSoar

/-!
# A verification development for the mini-SOAR core

This file embeds the algorithmic core of the mini-SOAR repository in Lean:
the alert normalizer (src/lib/normalize.js), the two rule engines
(src/lib/rulesEngine.js and the conditions-based variant), the unified
expression evaluator, the playbook instance generator, the YAML serializer
and the template anonymizer (src/pages/PlaybookBuilder.tsx,
src/utils/generateYaml.ts), and proves properties of the embedded code.

JavaScript values are modelled by the inductive `JSValue`.  Numbers are
modelled as integers (every numeric literal appearing in the repository and
in its data is an integer).  Objects are association lists in insertion
order, matching JavaScript property-enumeration order for string keys.
-/

/-- A JavaScript runtime value.  `undefined` is the JavaScript `undefined`. -/
inductive JSValue where
  | undefined
  | null
  | bool (b : Bool)
  | num (n : Int)
  | str (s : String)
  | arr (elems : List JSValue)
  | obj (fields : List (String × JSValue))
  deriving Repr, Inhabited

/-- JavaScript truthiness.  (`NaN` does not arise in the integer model.) -/
def truthy : JSValue → Bool
  | .undefined => false
  | .null => false
  | .bool b => b
  | .num n => n != 0
  | .str s => !s.isEmpty
  | .arr _ => true
  | .obj _ => true

/-- The JavaScript `a || b` operator: `a` when truthy, else `b`. -/
def jsOr (a b : JSValue) : JSValue := if truthy a then a else b

/-- First binding of key `k` in an association list, `undefined` when absent. -/
def lookupField (k : String) : List (String × JSValue) → JSValue
  | [] => .undefined
  | (k₀, v) :: rest => if k₀ = k then v else lookupField k rest

/-- Property read `v[k]` for a base value that is not `null`/`undefined`
(JavaScript would throw there; the throwing variant is `jsGetE`).
Array bases expose `length` and their numeric indices, mirroring
JavaScript index properties. -/
def jsGet : JSValue → String → JSValue
  | .obj fs, k => lookupField k fs
  | .arr xs, k =>
      if k = "length" then .num xs.length
      else match k.toNat? with
        | some i => (xs.get? i).getD .undefined
        | none => .undefined
  | .str s, k => if k = "length" then .num s.length else .undefined
  | _, _ => .undefined

/-- Property read that throws on a `null`/`undefined` base, as the
JavaScript member access `v.k` does. -/
def jsGetE (v : JSValue) (k : String) : Except String JSValue :=
  match v with
  | .null => .error ("TypeError: Cannot read properties of null (reading " ++ k ++ ")")
  | .undefined => .error ("TypeError: Cannot read properties of undefined (reading " ++ k ++ ")")
  | w => .ok (jsGet w k)

/-- The JavaScript `k in v` test (used by the condition-path walker). -/
def jsHasKey : JSValue → String → Bool
  | .obj fs, k => fs.any (fun f => f.1 = k)
  | .arr xs, k =>
      k = "length" ||
        (match k.toNat? with
         | some i => decide (i < xs.length)
         | none => false)
  | _, _ => false

/-- `typeof v === "object"` (true for objects, arrays and `null`). -/
def isObjectType : JSValue → Bool
  | .obj _ => true
  | .arr _ => true
  | .null => true
  | _ => false

/-- Work item for the fuelled string-coercion evaluator: either a value to
display or an array-element list to comma-join. -/
inductive DispJob where
  | val (v : JSValue)
  | elems (xs : List JSValue)

/-- Fuel bound used by the recursive evaluators below.  Each recursive step
of a fuelled evaluator moves to a structurally smaller job, so any fuel
exceeding the nesting depth of the input yields the fixpoint value; no value
in this development comes near this depth. -/
def jsFuel : Nat := 1000000

/-- Fuelled evaluator for JavaScript `String(v)`.  Arrays stringify by
joining their elements with commas, with `null`/`undefined` elements
becoming empty strings, as `Array.prototype.toString` does.  The fuel is
structural so the definition unfolds by `rfl`. -/
def dispFuel : Nat → DispJob → String
  | 0, _ => ""
  | _ + 1, .val .undefined => "undefined"
  | _ + 1, .val .null => "null"
  | _ + 1, .val (.bool b) => if b then "true" else "false"
  | _ + 1, .val (.num n) => toString n
  | _ + 1, .val (.str s) => s
  | f + 1, .val (.arr xs) => dispFuel f (.elems xs)
  | _ + 1, .val (.obj _) => "[object Object]"
  | _ + 1, .elems [] => ""
  | _ + 1, .elems [.null] => ""
  | _ + 1, .elems [.undefined] => ""
  | f + 1, .elems [x] => dispFuel f (.val x)
  | f + 1, .elems (.null :: y :: rest) => "," ++ dispFuel f (.elems (y :: rest))
  | f + 1, .elems (.undefined :: y :: rest) => "," ++ dispFuel f (.elems (y :: rest))
  | f + 1, .elems (x :: y :: rest) =>
      dispFuel f (.val x) ++ "," ++ dispFuel f (.elems (y :: rest))

/-- JavaScript `String(v)` / template-literal coercion. -/
def jsToDisplayString (v : JSValue) : String := dispFuel jsFuel (.val v)

/-- Whitespace test used by the string-trim model (the whitespace characters
that occur in this repository's data). -/
def isWSChar (c : Char) : Bool := c = ' ' || c = '\t' || c = '\n' || c = '\r'

/-- JavaScript `String.prototype.trim`: strip whitespace from both ends. -/
def trimString (s : String) : String :=
  ⟨((s.data.dropWhile isWSChar).reverse.dropWhile isWSChar).reverse⟩

/-- Digit-prefix integer parsing after optional sign, as consumed by
`parseInt(·, 10)`: skip leading whitespace, one optional sign, then a
maximal run of decimal digits; `none` (JavaScript `NaN`) when that run is
empty. -/
def parseIntStr (s : String) : Option Int :=
  let l := s.data.dropWhile isWSChar
  let (neg, l₁) :=
    match l with
    | '-' :: rest => (true, rest)
    | '+' :: rest => (false, rest)
    | _ => (false, l)
  let ds := l₁.takeWhile (·.isDigit)
  if ds.isEmpty then none
  else
    let n : Nat := ds.foldl (fun a c => a * 10 + (c.toNat - 48)) 0
    some (if neg then -(n : Int) else (n : Int))

/-- `parseInt(v, 10)`: JavaScript first coerces the argument with
`String(·)` and then parses a decimal prefix; `none` models `NaN`. -/
def jsParseInt (v : JSValue) : Option Int :=
  parseIntStr (jsToDisplayString v)

/-- Optional-chaining property read `v?.k`: `undefined` on a nullish base,
a plain read otherwise. -/
def jsGetOpt (v : JSValue) (k : String) : JSValue :=
  match v with
  | .null => .undefined
  | .undefined => .undefined
  | w => jsGet w k

/-- Computed member access `o[v]`: the key is coerced with `String(·)`. -/
def jsIndex (o : JSValue) (v : JSValue) : JSValue :=
  jsGet o (jsToDisplayString v)

/-- JavaScript strict equality `===` for the values that flow through the
rule engines.  Arrays and objects compare by reference in JavaScript; the
two operands of every `===` in the engines originate from distinct literals
(rule file versus alert payload), so composite comparisons are `false`. -/
def jsStrictEq : JSValue → JSValue → Bool
  | .null, .null => true
  | .undefined, .undefined => true
  | .bool a, .bool b => a == b
  | .num a, .num b => a == b
  | .str a, .str b => a == b
  | _, _ => false

/-- JavaScript `ToNumber` on the primitive values of the model; `none`
models `NaN`.  Strings coerce via a full numeric parse (integer numerals in
this model); arrays and objects are outside the modelled scope and map to
`NaN`. -/
def jsToNumber : JSValue → Option Int
  | .undefined => none
  | .null => some 0
  | .bool b => some (if b then 1 else 0)
  | .num n => some n
  | .str s =>
      let l := (s.data.dropWhile isWSChar).reverse.dropWhile isWSChar |>.reverse
      match l with
      | [] => some 0
      | _ =>
        let (neg, l₁) :=
          match l with
          | '-' :: rest => (true, rest)
          | '+' :: rest => (false, rest)
          | _ => (false, l)
        if l₁ ≠ [] && l₁.all (·.isDigit) then
          let n : Nat := l₁.foldl (fun a c => a * 10 + (c.toNat - 48)) 0
          some (if neg then -(n : Int) else (n : Int))
        else none
  | .arr _ => none
  | .obj _ => none

/-- The JavaScript relational operator `a <= b`: string/string compares
lexicographically, every other combination coerces both sides to numbers,
and a `NaN` side makes the comparison false. -/
def jsLe (a b : JSValue) : Bool :=
  match a, b with
  | .str s, .str t => decide (s ≤ t)
  | _, _ =>
      match jsToNumber a, jsToNumber b with
      | some x, some y => decide (x ≤ y)
      | _, _ => false

/-- `parseFloat(v)`: coerce with `String(·)` and parse a leading numeral.
Fractional numerals are outside the integer model (they do not occur in
this repository's data); the integer-prefix parse matches `parseFloat` on
every integer-valued input. -/
def jsParseFloat (v : JSValue) : Option Int :=
  parseIntStr (jsToDisplayString v)

/-- Does `pat` occur at the head of `t`? -/
def leadsWith : List Char → List Char → Bool
  | [], _ => true
  | _ :: _, [] => false
  | p :: ps, t :: ts => p == t && leadsWith ps ts

/-- Does `pat` occur anywhere in `t`?  (The scan of `String.includes`.) -/
def containsSeq (pat : List Char) : List Char → Bool
  | [] => leadsWith pat []
  | c :: rest => leadsWith pat (c :: rest) || containsSeq pat rest

/-- `s.includes(pat)`. -/
def strIncludes (s pat : String) : Bool := containsSeq pat.data s.data

/-- The alias-priority chain `data.k₁ || data.k₂ || … || dflt` used by the
normalizer. -/
def aliasChain (data : JSValue) (keys : List String) (dflt : JSValue) : JSValue :=
  match keys with
  | [] => dflt
  | k :: rest => jsOr (jsGet data k) (aliasChain data rest dflt)

/-!
## Normalizer — src/lib/normalize.js, normalizeSplunkAlert

The source builds the normalized object literal, then patches
`event_count` (default 1 when `NaN` or negative) and `severity`
(default "Medium" when falsy or blank).  The patched object equals the
object built directly from the patched values, which is how the embedding
constructs it.  The `severity.trim()` call throws a `TypeError` when the
extracted severity is truthy but not a string; the embedding returns the
error through `Except`.
-/

/-- The normalized-alert object literal, in source key order. -/
def mkNormalized (ty severity machine srcIp user : JSValue) (ec : Int)
    (timestamp raw : JSValue) : JSValue :=
  .obj
    [ ("type", ty), ("severity", severity), ("machine", machine),
      ("src_ip", srcIp), ("user", user), ("event_count", .num ec),
      ("timestamp", timestamp), ("raw", raw) ]

/-- `const data = alertJson.result || alertJson` (the value taken once the
member access has succeeded). -/
def normalizeData (alertJson : JSValue) : JSValue :=
  jsOr (jsGet alertJson "result") alertJson

/-- The resolved `event_count` alias value, before the default:
`data.event_count || data.count || data.events`. -/
def eventCountField (data : JSValue) : JSValue :=
  jsOr (jsGet data "event_count") (jsOr (jsGet data "count") (jsGet data "events"))

/-- `parseInt(data.event_count || data.count || data.events || 1, 10)`
followed by the `isNaN`/negative patch to 1. -/
def patchedEventCount (data : JSValue) : Int :=
  match jsParseInt (aliasChain data ["event_count", "count", "events"] (.num 1)) with
  | none => 1
  | some n => if n < 0 then 1 else n

def normalizeSplunkAlert (alertJson : JSValue) : Except String JSValue :=
  -- const data = alertJson.result || alertJson;  (throws on nullish input)
  match jsGetE alertJson "result" with
  | .error e => .error e
  | .ok resultField =>
    let data := jsOr resultField alertJson
    -- type: data.type || data.alert_type || data._raw?.type || null
    let ty := jsOr (jsGet data "type")
        (jsOr (jsGet data "alert_type") (jsOr (jsGet (jsGet data "_raw") "type") .null))
    -- severity: data.severity || data.priority || data.level || "Medium"
    let severity₀ := aliasChain data ["severity", "priority", "level"] (.str "Medium")
    let machine := aliasChain data ["machine", "hostname", "host", "computer"] .null
    let srcIp := aliasChain data ["src_ip", "source_ip", "src", "source", "ip"] .null
    let user := aliasChain data ["user", "username", "account"] .null
    let ec : Int := patchedEventCount data
    let timestamp := aliasChain data ["timestamp", "_time", "time", "event_time"] .null
    -- if (!severity || severity.trim() === "") severity = "Medium";
    -- severity.trim() throws when the extracted severity is truthy but
    -- not a string.
    if truthy severity₀ then
      match severity₀ with
      | .str s =>
          .ok (mkNormalized ty (if trimString s = "" then .str "Medium" else .str s)
                machine srcIp user ec timestamp alertJson)
      | _ => .error "TypeError: normalized.severity.trim is not a function"
    else .ok (mkNormalized ty (.str "Medium") machine srcIp user ec timestamp alertJson)

example :
    normalizeSplunkAlert (.obj [("severity", .num 5)]) =
      .error "TypeError: normalized.severity.trim is not a function" := by
  rfl

example :
    normalizeSplunkAlert (.obj [("event_count", .num (-3))]) =
      .ok (.obj
        [ ("type", .null), ("severity", .str "Medium"), ("machine", .null),
          ("src_ip", .null), ("user", .null), ("event_count", .num 1),
          ("timestamp", .null), ("raw", .obj [("event_count", .num (-3))]) ]) := by
  rfl

example :
    normalizeSplunkAlert (.obj [("result", .obj [("event_count", .str "abc")])]) =
      .ok (.obj
        [ ("type", .null), ("severity", .str "Medium"), ("machine", .null),
          ("src_ip", .null), ("user", .null), ("event_count", .num 1),
          ("timestamp", .null),
          ("raw", .obj [("result", .obj [("event_count", .str "abc")])]) ]) := by
  rfl

/-!
### Normalizer theorems (C6, C8)
-/

theorem jsOr_assoc (a b c : JSValue) : jsOr (jsOr a b) c = jsOr a (jsOr b c) := by
  unfold jsOr
  cases h : truthy a <;> simp [h]

theorem aliasChain_eventCount (data : JSValue) :
    aliasChain data ["event_count", "count", "events"] (.num 1) =
      jsOr (eventCountField data) (.num 1) := by
  simp only [aliasChain, eventCountField, jsOr_assoc]

/-- C6: `normalizeSplunkAlert` is not total — a truthy non-string
`severity` (here the number 5) reaches `severity.trim()` and throws a
`TypeError` instead of degrading to a default. -/
theorem c6_normalize_throws_on_nonstring_severity :
    normalizeSplunkAlert (.obj [("severity", .num 5)]) =
      .error "TypeError: normalized.severity.trim is not a function" := rfl

/-- C8: whenever normalization succeeds on a payload whose resolved
`event_count` alias value is absent/falsy, parses to `NaN` (for example
the string "abc"), or parses to a negative number (for example −3), the
normalized alert carries `event_count = 1`. -/
theorem jsGet_mkNormalized_event_count (ty sev mach ip u ts raw : JSValue) (ec : Int) :
    jsGet (mkNormalized ty sev mach ip u ec ts raw) "event_count" = .num ec := rfl

theorem patchedEventCount_eq_one {data : JSValue}
    (h : truthy (eventCountField data) = false ∨
      jsParseInt (eventCountField data) = none ∨
      ∃ m : Int, jsParseInt (eventCountField data) = some m ∧ m < 0) :
    patchedEventCount data = 1 := by
  unfold patchedEventCount
  rw [aliasChain_eventCount]
  rcases h with h | h | ⟨m, hm, hneg⟩
  · have : jsOr (eventCountField data) (.num 1) = .num 1 := by simp [jsOr, h]
    rw [this]; rfl
  · unfold jsOr
    cases ht : truthy (eventCountField data)
    · simp only [Bool.false_eq_true, if_false]; rfl
    · simp only [if_true, h]
  · unfold jsOr
    cases ht : truthy (eventCountField data)
    · simp only [Bool.false_eq_true, if_false]; rfl
    · simp only [if_true, hm]; simp [hneg]

/-- A successful normalization always yields the normalized object literal
with the patched event count. -/
theorem normalizeSplunkAlert_ok_shape (payload r : JSValue)
    (hok : normalizeSplunkAlert payload = .ok r) :
    ∃ ty sev mach ip u ts,
      r = mkNormalized ty sev mach ip u (patchedEventCount (normalizeData payload))
            ts payload := by
  have hne : jsGetE payload "result" = .ok (jsGet payload "result") := by
    cases payload <;> first
      | rfl
      | (exfalso; rw [normalizeSplunkAlert] at hok; simp [jsGetE] at hok)
  rw [normalizeSplunkAlert, hne] at hok
  simp only [normalizeData] at hok ⊢
  split at hok
  · split at hok
    · exact ⟨_, _, _, _, _, _, (Except.ok.injEq _ _).mp hok.symm⟩
    · exact absurd hok (by simp)
  · exact ⟨_, _, _, _, _, _, (Except.ok.injEq _ _).mp hok.symm⟩

/-- C8: whenever normalization succeeds on a payload whose resolved
`event_count` alias value is absent/falsy, parses to `NaN` (for example
the string "abc"), or parses to a negative number (for example −3), the
normalized alert carries `event_count = 1`. -/
theorem c8_event_count_defaults_to_one (payload r : JSValue)
    (h : truthy (eventCountField (normalizeData payload)) = false ∨
      jsParseInt (eventCountField (normalizeData payload)) = none ∨
      ∃ m : Int, jsParseInt (eventCountField (normalizeData payload)) = some m ∧ m < 0)
    (hok : normalizeSplunkAlert payload = .ok r) :
    jsGet r "event_count" = .num 1 := by
  obtain ⟨ty, sev, mach, ip, u, ts, rfl⟩ := normalizeSplunkAlert_ok_shape payload r hok
  rw [jsGet_mkNormalized_event_count, patchedEventCount_eq_one h]

/-- The negative-count payload of the C8 witness. -/
def alertNegCount : JSValue := .obj [("event_count", .num (-3))]

/-- Witness for C8 at the payload `{event_count: -3}`. -/
theorem c8_event_count_witness :
    (∃ m : Int, jsParseInt (eventCountField (normalizeData alertNegCount)) = some m ∧ m < 0) ∧
    ∃ r, normalizeSplunkAlert alertNegCount = .ok r ∧ jsGet r "event_count" = .num 1 := by
  refine ⟨⟨-3, rfl, by decide⟩, ?_⟩
  refine ⟨mkNormalized .null (.str "Medium") .null .null .null 1 .null alertNegCount, rfl, ?_⟩
  exact c8_event_count_defaults_to_one alertNegCount _
    (Or.inr (Or.inr ⟨-3, rfl, by decide⟩)) rfl

/-!
## Rule model

The repository contains two rule engines with the same exported name
`evaluateRules`: src/lib/rulesEngine.js evaluates the flat `if`/`then`
dialect (Dialect B), and the conditions-based variant (src/unnamed/part_000)
evaluates the `conditions.all`/`conditions.any` dialect (Dialect A).  One
`Rule` type carries the optional keys of both dialects, so one rule array
can mix both shapes exactly as a parsed rules.json can.  `Option` models
key presence (`x !== undefined` checks).  The `if` key is named `ifC` and
the `then` key `thenA` because both words are Lean keywords.
-/

/-- A Dialect A condition object `{field, operator, value}`. -/
structure Condition where
  field : String
  operator : String
  value : JSValue
  deriving Repr

/-- The `conditions` object of a Dialect A rule. -/
structure AConditions where
  all : Option (List Condition)
  any : Option (List Condition)
  deriving Repr

/-- The `if` object of a Dialect B rule. -/
structure BConditions where
  type : Option JSValue
  severity : Option JSValue
  severity_equals : Option JSValue
  event_count_greater_than : Option JSValue
  count_greater_than : Option JSValue
  deriving Repr

/-- An action step, in the three shapes the repository documents and the
engines probe for: a bare action name, an `{action, params}` object, and a
legacy single-key object `{<name>: body}`. -/
inductive ActionStep where
  | bare (s : String)
  | withAction (action : String) (params : Option JSValue)
  | legacy (name : String) (body : JSValue)
  deriving Repr

/-- A rule; either dialect's keys may be present or absent. -/
structure Rule where
  name : String
  ifC : Option BConditions
  thenA : Option (List ActionStep)
  conditions : Option AConditions
  actions : Option (List ActionStep)
  deriving Repr

/-!
## Dialect B engine — src/lib/rulesEngine.js, evaluateRules
-/

/-- The `actionName`/`params` extraction of the Dialect B engine
(rulesEngine.js lines 55-66).  The engine first probes `actionStep.action`
for truthiness; otherwise it takes the first `Object.keys` entry as the
name and reads `actionStep[name]?.params || {}`.  On a bare string the
`action` probe is `undefined`, `Object.keys` yields the character indices,
and the indexed one-character string has no `params`. -/
def actionNameParamsB : ActionStep → JSValue × JSValue
  | .bare s =>
      if s.isEmpty then (.undefined, .obj []) else (.str "0", .obj [])
  | .withAction a params =>
      if truthy (.str a) then (.str a, jsOr (params.getD .undefined) (.obj []))
      else
        -- action key present but falsy: the first Object.keys entry is
        -- "action", and actionStep["action"] is the falsy name itself,
        -- whose ?.params is undefined.
        (.str "action", .obj [])
  | .legacy name body =>
      (.str name, jsOr (jsGetOpt body "params") (.obj []))

/-- One "Action executed" log line of the Dialect B engine
(rulesEngine.js lines 68-81). -/
def actionLogB (normalized : JSValue) (step : ActionStep) : String :=
  let np := actionNameParamsB step
  let an := np.1
  let params := np.2
  let paramValue : JSValue :=
    if jsStrictEq an (.str "firewall_block_ip") && truthy (jsGet params "ip_field") then
      jsOr (jsIndex normalized (jsGet params "ip_field")) (jsGet normalized "src_ip")
    else if (jsStrictEq an (.str "edr_isolate_host") || jsStrictEq an (.str "isolate_host"))
        && truthy (jsGet params "host_field") then
      jsOr (jsIndex normalized (jsGet params "host_field")) (jsGet normalized "machine")
    else .null
  if truthy paramValue then
    "🔥 Action executed: " ++ jsToDisplayString an ++ " (" ++ jsToDisplayString paramValue ++ ")"
  else
    "🔥 Action executed: " ++ jsToDisplayString an

/-- The per-rule match predicate of the Dialect B engine (rulesEngine.js
lines 13-42): `const conditions = rule.if || {}`, then each present
constraint must hold.  The count constraint falsifies the match when
`alertCount <= threshold`; a `NaN` comparison leaves the match intact. -/
def matchRuleB (rule : Rule) (normalized : JSValue) : Bool :=
  let conditions := rule.ifC.getD ⟨none, none, none, none, none⟩
  let typeOk :=
    match conditions.type with
    | some cv => jsStrictEq (jsGet normalized "type") cv
    | none => true
  let severityOk :=
    match conditions.severity_equals, conditions.severity with
    | some sv, _ => jsStrictEq (jsGet normalized "severity") sv
    | none, some sv => jsStrictEq (jsGet normalized "severity") sv
    | none, none => true
  let countOk :=
    match conditions.event_count_greater_than, conditions.count_greater_than with
    | some th, _ => !jsLe (jsOr (jsGet normalized "event_count") (.num 0)) th
    | none, some th => !jsLe (jsOr (jsGet normalized "event_count") (.num 0)) th
    | none, none => true
  typeOk && severityOk && countOk

/-- The log block a matched rule contributes in the Dialect B engine: the
"Matched rule" line followed by one line per `then` action step. -/
def ruleLogsB (normalized : JSValue) (rule : Rule) : List String :=
  ("📘 Matched rule: " ++ rule.name) ::
    (match rule.thenA with
     | some steps => steps.map (actionLogB normalized)
     | none => [])

/-- The rule loop of the Dialect B engine: logs and matches accumulate in
rule-declaration order. -/
def evaluateRulesGo (normalized : JSValue) : List Rule → List String × List Rule
  | [] => ([], [])
  | r :: rest =>
      let tail := evaluateRulesGo normalized rest
      if matchRuleB r normalized then
        (ruleLogsB normalized r ++ tail.1, r :: tail.2)
      else tail

/-- src/lib/rulesEngine.js, evaluateRules: the Dialect B engine.  When no
rule matched, a single informational line is appended. -/
def evaluateRules (normalized : JSValue) (rules : List Rule) : List String × List Rule :=
  let acc := evaluateRulesGo normalized rules
  if acc.2.isEmpty then (acc.1 ++ ["ℹ️ No rule matched."], acc.2) else acc

/-!
## Dialect A engine — src/unnamed/part_000, evaluateRules (embedded as
`evaluateRulesA`)
-/

/-- Path walk for an `alert.`-prefixed condition field (part_000 lines
102-112): each step requires a truthy object-typed value owning the key,
otherwise the walk yields `undefined`. -/
def walkPath : List String → JSValue → JSValue
  | [], v => v
  | p :: rest, v =>
      if truthy v && isObjectType v && jsHasKey v p then walkPath rest (jsGet v p)
      else .undefined

/-- part_000, evaluateCondition: resolve the field against the normalized
alert (walking a dotted path under an `alert.` prefix), then apply the
operator; an unknown operator yields false.  `field.replace("alert.", "")`
removes the first occurrence, which under the `startsWith` guard is the
leading prefix. -/
def evaluateCondition (condition : Condition) (normalized : JSValue) : Bool :=
  let field := condition.field
  let value := condition.value
  let alertValue :=
    if field.startsWith "alert." then
      walkPath ((field.drop 6).splitOn ".") normalized
    else jsGet normalized field
  match condition.operator with
  | "equals" => jsStrictEq alertValue value
  | "greater_than" =>
      match jsParseFloat alertValue, jsParseFloat value with
      | some x, some y => decide (x > y)
      | _, _ => false
  | "less_than" =>
      match jsParseFloat alertValue, jsParseFloat value with
      | some x, some y => decide (x < y)
      | _, _ => false
  | "greater_than_or_equal" =>
      match jsParseFloat alertValue, jsParseFloat value with
      | some x, some y => decide (x ≥ y)
      | _, _ => false
  | "less_than_or_equal" =>
      match jsParseFloat alertValue, jsParseFloat value with
      | some x, some y => decide (x ≤ y)
      | _, _ => false
  | "contains" =>
      match alertValue, value with
      | .str a, .str b => strIncludes a b
      | _, _ => false
  | "not_equals" => !jsStrictEq alertValue value
  | _ => false

/-- The per-rule match predicate of the Dialect A engine (part_000 lines
14-36): `conditions.all`, when present as an array (an empty array is a
truthy JavaScript value, so it takes this branch), requires every condition
to hold; otherwise `conditions.any` requires at least one; otherwise the
rule does not match. -/
def matchRuleA (rule : Rule) (normalized : JSValue) : Bool :=
  let conditions := rule.conditions.getD ⟨none, none⟩
  match conditions.all with
  | some l => l.all (fun c => evaluateCondition c normalized)
  | none =>
      match conditions.any with
      | some l => l.any (fun c => evaluateCondition c normalized)
      | none => false

/-- The `actionName`/`params` extraction of the Dialect A engine (part_000
lines 46-60): a bare string is the action name itself; otherwise as in the
Dialect B engine. -/
def actionNameParamsA : ActionStep → JSValue × JSValue
  | .bare s => (.str s, .obj [])
  | step => actionNameParamsB step

/-- One "Action executed" log line of the Dialect A engine (part_000 lines
62-75); the firewall action is spelled `firewall.block_ip` and reads
`params.ip`. -/
def actionLogA (normalized : JSValue) (step : ActionStep) : String :=
  let np := actionNameParamsA step
  let an := np.1
  let params := np.2
  let paramValue : JSValue :=
    if jsStrictEq an (.str "firewall.block_ip") && truthy (jsGet params "ip") then
      jsOr (jsIndex normalized (jsGet params "ip")) (jsGet normalized "src_ip")
    else if (jsStrictEq an (.str "edr_isolate_host") || jsStrictEq an (.str "isolate_host"))
        && truthy (jsGet params "host_field") then
      jsOr (jsIndex normalized (jsGet params "host_field")) (jsGet normalized "machine")
    else .null
  if truthy paramValue then
    "🔥 Action executed: " ++ jsToDisplayString an ++ " (" ++ jsToDisplayString paramValue ++ ")"
  else
    "🔥 Action executed: " ++ jsToDisplayString an

/-- The log block a matched rule contributes in the Dialect A engine. -/
def ruleLogsA (normalized : JSValue) (rule : Rule) : List String :=
  ("📘 Matched rule: " ++ rule.name) ::
    (match rule.actions with
     | some steps => steps.map (actionLogA normalized)
     | none => [])

/-- The rule loop of the Dialect A engine. -/
def evaluateRulesAGo (normalized : JSValue) : List Rule → List String × List Rule
  | [] => ([], [])
  | r :: rest =>
      let tail := evaluateRulesAGo normalized rest
      if matchRuleA r normalized then
        (ruleLogsA normalized r ++ tail.1, r :: tail.2)
      else tail

/-- src/unnamed/part_000, evaluateRules: the Dialect A engine. -/
def evaluateRulesA (normalized : JSValue) (rules : List Rule) : List String × List Rule :=
  let acc := evaluateRulesAGo normalized rules
  if acc.2.isEmpty then (acc.1 ++ ["ℹ️ No rule matched."], acc.2) else acc

/-!
### Characterization of the two engines
-/

/-- Concatenated image of a list under a list-valued map. -/
def concatMapList {α β : Type} (f : α → List β) : List α → List β
  | [] => []
  | x :: xs => f x ++ concatMapList f xs

theorem evaluateRulesGo_eq (normalized : JSValue) (rules : List Rule) :
    evaluateRulesGo normalized rules =
      (concatMapList
          (fun r => if matchRuleB r normalized then ruleLogsB normalized r else []) rules,
        rules.filter (fun r => matchRuleB r normalized)) := by
  induction rules with
  | nil => rfl
  | cons r rest ih =>
      simp only [evaluateRulesGo, ih, concatMapList, List.filter]
      cases h : matchRuleB r normalized <;> simp [h]

theorem evaluateRulesAGo_eq (normalized : JSValue) (rules : List Rule) :
    evaluateRulesAGo normalized rules =
      (concatMapList
          (fun r => if matchRuleA r normalized then ruleLogsA normalized r else []) rules,
        rules.filter (fun r => matchRuleA r normalized)) := by
  induction rules with
  | nil => rfl
  | cons r rest ih =>
      simp only [evaluateRulesAGo, ih, concatMapList, List.filter]
      cases h : matchRuleA r normalized <;> simp [h]

theorem evaluateRules_matches (normalized : JSValue) (rules : List Rule) :
    (evaluateRules normalized rules).2 = rules.filter (fun r => matchRuleB r normalized) := by
  simp only [evaluateRules, evaluateRulesGo_eq]
  split <;> rfl

theorem evaluateRulesA_matches (normalized : JSValue) (rules : List Rule) :
    (evaluateRulesA normalized rules).2 = rules.filter (fun r => matchRuleA r normalized) := by
  simp only [evaluateRulesA, evaluateRulesAGo_eq]
  split <;> rfl

theorem mem_concatMapList {α β : Type} {f : α → List β} {a : α} {l : List α} {b : β}
    (ha : a ∈ l) (hb : b ∈ f a) : b ∈ concatMapList f l := by
  induction l with
  | nil => cases ha
  | cons x xs ih =>
      rcases List.mem_cons.mp ha with h | h
      · subst h; exact List.mem_append_left _ hb
      · exact List.mem_append_right _ (ih h)

/-- Every log line contributed by a matched rule appears in the engine
output (the no-match sentinel only appends). -/
theorem evaluateRules_log_mem {normalized : JSValue} {rules : List Rule} {r : Rule}
    (hr : r ∈ rules) (hm : matchRuleB r normalized = true) {line : String}
    (hl : line ∈ ruleLogsB normalized r) :
    line ∈ (evaluateRules normalized rules).1 := by
  have base : line ∈ (evaluateRulesGo normalized rules).1 := by
    rw [evaluateRulesGo_eq]
    exact mem_concatMapList hr (by simp [hm, hl])
  simp only [evaluateRules]
  split
  · exact List.mem_append_left _ base
  · exact base

theorem evaluateRulesA_log_mem {normalized : JSValue} {rules : List Rule} {r : Rule}
    (hr : r ∈ rules) (hm : matchRuleA r normalized = true) {line : String}
    (hl : line ∈ ruleLogsA normalized r) :
    line ∈ (evaluateRulesA normalized rules).1 := by
  have base : line ∈ (evaluateRulesAGo normalized rules).1 := by
    rw [evaluateRulesAGo_eq]
    exact mem_concatMapList hr (by simp [hm, hl])
  simp only [evaluateRulesA]
  split
  · exact List.mem_append_left _ base
  · exact base

/-!
### Concrete rules and alerts used in the rule-engine theorems
-/

/-- A canonical brute-force alert. -/
def alertBF : JSValue :=
  .obj [("type", .str "Brute Force"), ("severity", .str "High"), ("event_count", .num 15)]

/-- A Dialect A-shaped rule whose single condition requires type
"Phishing". -/
def ruleDialectA : Rule :=
  { name := "phishing-a", ifC := none, thenA := none,
    conditions := some ⟨some [⟨"type", "equals", .str "Phishing"⟩], none⟩,
    actions := some [] }

/-- A Dialect B-shaped rule matching type "Brute Force". -/
def ruleDialectB : Rule :=
  { name := "brute-b", ifC := some ⟨some (.str "Brute Force"), none, none, none, none⟩,
    thenA := some [], conditions := none, actions := none }

/-- A Dialect A rule with an empty `conditions.all` and absent
`conditions.any`. -/
def ruleEmptyAll : Rule :=
  { name := "empty-all", ifC := none, thenA := none,
    conditions := some ⟨some [], none⟩, actions := some [] }

/-- A rule without an `if` key carrying one `then` action. -/
def ruleNoIf : Rule :=
  { name := "always", ifC := none,
    thenA := some [.withAction "firewall_block_ip" (some (.obj [("ip_field", .str "src_ip")]))],
    conditions := none, actions := none }

/-- C2 counterexample: no engine applies each dialect's semantics to its
own shape within a mixed array.  On a mixed array the Dialect B engine
(rulesEngine.js) matches the A-shaped rule even though Dialect A semantics
rejects it, and the Dialect A engine (part_000) rejects the B-shaped rule
even though Dialect B semantics accepts it. -/
theorem c2_mixed_dialect_counterexample :
    matchRuleA ruleDialectA alertBF = false ∧
    (evaluateRules alertBF [ruleDialectA, ruleDialectB]).2 = [ruleDialectA, ruleDialectB] ∧
    matchRuleB ruleDialectB alertBF = true ∧
    (evaluateRulesA alertBF [ruleDialectA, ruleDialectB]).2 = [] :=
  ⟨rfl, rfl, rfl, rfl⟩

/-- C2 (amended): each engine applies its own dialect's semantics to every
rule of the array, regardless of the rule's shape: the rulesEngine.js
matcher filters by the Dialect B predicate and the part_000 matcher by the
Dialect A predicate. -/
theorem c2_each_engine_single_dialect (normalized : JSValue) (rules : List Rule) :
    (evaluateRules normalized rules).2 = rules.filter (fun r => matchRuleB r normalized) ∧
    (evaluateRulesA normalized rules).2 = rules.filter (fun r => matchRuleA r normalized) :=
  ⟨evaluateRules_matches normalized rules, evaluateRulesA_matches normalized rules⟩

/-- C3 counterexample: a rule with `conditions.all = []` and no
`conditions.any` matches every alert in the Dialect A engine (an empty
array is truthy, so the vacuous `all` loop leaves `matched` true), is added
to `matches`, and a "Matched rule" line is emitted. -/
theorem c3_empty_all_counterexample :
    (evaluateRulesA (.obj []) [ruleEmptyAll]).1 = ["📘 Matched rule: empty-all"] ∧
    (evaluateRulesA (.obj []) [ruleEmptyAll]).2 = [ruleEmptyAll] :=
  ⟨rfl, rfl⟩

/-- C3 (amended): for every Dialect A rule whose `conditions.all` is an
empty list and whose `conditions.any` is absent, and for every canonical
alert, the rule matches: it is added to `matches` and a "Matched rule" log
line is emitted. -/
theorem c3_empty_all_matches_every_alert (normalized : JSValue) (r : Rule)
    (h : r.conditions = some ⟨some [], none⟩) (rules : List Rule) (hr : r ∈ rules) :
    matchRuleA r normalized = true ∧
    r ∈ (evaluateRulesA normalized rules).2 ∧
    ("📘 Matched rule: " ++ r.name) ∈ (evaluateRulesA normalized rules).1 := by
  have hm : matchRuleA r normalized = true := by simp [matchRuleA, h]
  refine ⟨hm, ?_, ?_⟩
  · rw [evaluateRulesA_matches]
    exact List.mem_filter.mpr ⟨hr, by simp [hm]⟩
  · exact evaluateRulesA_log_mem hr hm (by simp [ruleLogsA])

/-- Witness for C3 (amended) at the concrete empty-`all` rule. -/
theorem c3_empty_all_matches_witness :
    matchRuleA ruleEmptyAll alertBF = true ∧
    ruleEmptyAll ∈ (evaluateRulesA alertBF [ruleEmptyAll]).2 ∧
    ("📘 Matched rule: " ++ ruleEmptyAll.name) ∈ (evaluateRulesA alertBF [ruleEmptyAll]).1 :=
  c3_empty_all_matches_every_alert alertBF ruleEmptyAll rfl [ruleEmptyAll]
    (List.mem_singleton.mpr rfl)

/-- C10: in the Dialect B engine a rule with no `if` key matches every
canonical alert unconditionally (every constraint check is vacuous), is
added to `matches`, and its "Matched rule" line together with one line per
`then` action appears in the logs. -/
theorem c10_ifless_rule_matches_unconditionally (normalized : JSValue) (r : Rule)
    (h : r.ifC = none) (rules : List Rule) (hr : r ∈ rules) :
    matchRuleB r normalized = true ∧
    r ∈ (evaluateRules normalized rules).2 ∧
    ∀ line ∈ ruleLogsB normalized r, line ∈ (evaluateRules normalized rules).1 := by
  have hm : matchRuleB r normalized = true := by simp [matchRuleB, h]
  refine ⟨hm, ?_, ?_⟩
  · rw [evaluateRules_matches]
    exact List.mem_filter.mpr ⟨hr, by simp [hm]⟩
  · exact fun line hl => evaluateRules_log_mem hr hm hl

/-- Witness for C10 at a concrete `if`-less rule with one action. -/
theorem c10_ifless_rule_witness :
    matchRuleB ruleNoIf alertBF = true ∧
    ruleNoIf ∈ (evaluateRules alertBF [ruleNoIf]).2 ∧
    ∀ line ∈ ruleLogsB alertBF ruleNoIf, line ∈ (evaluateRules alertBF [ruleNoIf]).1 :=
  c10_ifless_rule_matches_unconditionally alertBF ruleNoIf rfl [ruleNoIf]
    (List.mem_singleton.mpr rfl)

/-!
## Playbook configuration and instance generation —
src/pages/PlaybookBuilder.tsx, generateInstanceYaml

The builder state holds string-valued collect mappings (arrays are joined
into comma-separated strings on load), boolean enrichment flags, the
condition expression, and two action lists.
-/

/-- The collect mapping of the builder state; empty string means unset
(falsy). -/
structure CollectConfig where
  sender : String
  recipient : String
  subject : String
  urls : String
  attachment_hashes : String
  src_ip : String
  deriving Repr

/-- The three enrichment flags. -/
structure EnrichConfig where
  vt_hash : Bool
  vt_url : Bool
  abuseipdb_geoip : Bool
  deriving Repr, DecidableEq

/-- The condition block of the configuration. -/
structure ConditionConfig where
  expression : String
  deriving Repr

/-- A builder action item: the action id and its free-form input map. -/
structure ActionItem where
  action : String
  input : List (String × String)
  deriving Repr

/-- The action lists of the configuration. -/
structure ActionsConfig where
  trueActions : List ActionItem
  falseActions : List ActionItem
  deriving Repr

/-- The playbook configuration consumed by `generateInstanceYaml`. -/
structure PlaybookConfig where
  name : String
  collect : CollectConfig
  enrich : EnrichConfig
  condition : ConditionConfig
  actions : ActionsConfig
  deriving Repr

/-- A step's `next` value: a single id or an id array (parallel fan-out). -/
inductive NextVal where
  | strVal (s : String)
  | listVal (ids : List String)
  deriving Repr, DecidableEq

/-- An assembled pipeline step.  `none` in `next`/`true_next`/`false_next`
models an absent key (action-group steps carry no `next` key at all). -/
structure PlaybookStep where
  id : String
  type : String
  params : JSValue
  next : Option NextVal
  true_next : Option String
  false_next : Option String
  deriving Repr

/-- The collect mapping object: only truthy (non-empty) fields are added,
in source order (generateInstanceYaml lines 838-844). -/
def collectMapping (c : CollectConfig) : List (String × JSValue) :=
  (if c.sender ≠ "" then [("sender", JSValue.str c.sender)] else []) ++
  (if c.recipient ≠ "" then [("recipient", JSValue.str c.recipient)] else []) ++
  (if c.subject ≠ "" then [("subject", JSValue.str c.subject)] else []) ++
  (if c.urls ≠ "" then [("urls", JSValue.str c.urls)] else []) ++
  (if c.attachment_hashes ≠ "" then [("attachment_hashes", JSValue.str c.attachment_hashes)] else []) ++
  (if c.src_ip ≠ "" then [("src_ip", JSValue.str c.src_ip)] else [])

/-- The ids of the enabled enrich steps, in the fixed source order
vt_hash, vt_url, abuseipdb. -/
def enrichIds (e : EnrichConfig) : List String :=
  (if e.vt_hash then ["vt_hash"] else []) ++
  (if e.vt_url then ["vt_url"] else []) ++
  (if e.abuseipdb_geoip then ["abuseipdb"] else [])

/-- The enabled enrich steps; each points to `evaluate`
(generateInstanceYaml lines 854-892). -/
def enrichSteps (e : EnrichConfig) : List PlaybookStep :=
  (if e.vt_hash then
    [{ id := "vt_hash", type := "vt_hash_lookup",
       params := .obj [("hashes", .str "$\x7bsteps.collect.attachment_hashes\x7d")],
       next := some (.strVal "evaluate"), true_next := none, false_next := none }]
   else []) ++
  (if e.vt_url then
    [{ id := "vt_url", type := "vt_url_reputation",
       params := .obj [("urls", .str "$\x7bsteps.collect.urls\x7d")],
       next := some (.strVal "evaluate"), true_next := none, false_next := none }]
   else []) ++
  (if e.abuseipdb_geoip then
    [{ id := "abuseipdb", type := "abuseipdb_lookup",
       params := .obj [("ip", .str "$\x7bsteps.collect.src_ip\x7d")],
       next := some (.strVal "evaluate"), true_next := none, false_next := none }]
   else [])

/-- The per-action input mapping of the action-group assembly
(generateInstanceYaml lines 915-950): known action ids map to a canonical
input key, the rest keep the builder-supplied input map. -/
def actionObjInput (a : ActionItem) : List (String × JSValue) :=
  if a.action = "mail.quarantine" then
    [("message_id", .str "$\x7balert.alert_id\x7d")]
  else if a.action = "identity.suspend_user" then
    [("user", .str "$\x7bsteps.collect.sender\x7d")]
  else if a.action = "firewall.block_ip" then
    [("ip", .str "$\x7bsteps.collect.src_ip\x7d")]
  else
    a.input.map (fun kv => (kv.1, JSValue.str kv.2))

/-- The serialized form of one action object: `{action, input}`. -/
def actionObjToJS (a : ActionItem) : JSValue :=
  .obj [("action", .str a.action), ("input", .obj (actionObjInput a))]

/-- generateInstanceYaml steps 1-5 (lines 834-1006): the assembled step
list.  The source constructs `collect` with `next: null` and patches it
after the enrich steps are known; the assembled list equals the one built
directly with the patched value. -/
def buildInstanceSteps (config : PlaybookConfig) : List PlaybookStep :=
  let mapping := collectMapping config.collect
  let ids := enrichIds config.enrich
  let collectStep : PlaybookStep :=
    { id := "collect", type := "collect_normalize",
      params := if mapping.isEmpty then .obj [] else .obj [("mapping", .obj mapping)],
      next := some (if ids.isEmpty then .strVal "evaluate" else .listVal ids),
      true_next := none, false_next := none }
  let evaluateStep : PlaybookStep :=
    { id := "evaluate", type := "condition",
      params := .obj [("expression", .str config.condition.expression)],
      next := none, true_next := some "high", false_next := some "low" }
  let highStep : PlaybookStep :=
    { id := "high", type := "action_group",
      params := .obj [("actions", .arr (config.actions.trueActions.map actionObjToJS))],
      next := none, true_next := none, false_next := none }
  let lowStep : PlaybookStep :=
    { id := "low", type := "action_group",
      params := .obj [("actions", .arr (config.actions.falseActions.map actionObjToJS))],
      next := none, true_next := none, false_next := none }
  collectStep :: enrichSteps config.enrich ++ [evaluateStep, highStep, lowStep]

/-- A configuration with exactly one enrichment flag enabled. -/
def cfgSingleEnrich : PlaybookConfig :=
  { name := "Phishing Email Playbook",
    collect :=
      { sender := "badguy@malicious.com", recipient := "", subject := "",
        urls := "", attachment_hashes := "", src_ip := "" },
    enrich := { vt_hash := true, vt_url := false, abuseipdb_geoip := false },
    condition := { expression := "" },
    actions := { trueActions := [], falseActions := [] } }

/-- A configuration with two enrichment flags enabled. -/
def cfgTwoEnrich : PlaybookConfig :=
  { cfgSingleEnrich with
    enrich := { vt_hash := true, vt_url := true, abuseipdb_geoip := false } }

/-- C4 counterexample: with exactly one enrichment flag enabled the collect
step's `next` is the one-element array `["vt_hash"]`, not the bare id
`"vt_hash"` the claim requires. -/
theorem c4_single_enrich_counterexample :
    ((buildInstanceSteps cfgSingleEnrich).map (fun s => (s.id, s.next))) =
      [("collect", some (NextVal.listVal ["vt_hash"])),
       ("vt_hash", some (NextVal.strVal "evaluate")),
       ("evaluate", none), ("high", none), ("low", none)] ∧
    NextVal.listVal ["vt_hash"] ≠ NextVal.strVal "vt_hash" :=
  ⟨rfl, by decide⟩

/-- C4 (amended): the collect step's `next` is the array of all enabled
enrich ids whenever at least one flag is enabled — a one-element array for
a single flag, the ordered two-element array for two — and `"evaluate"`
when none is; every enrich step's `next` (in particular the last one's) is
`"evaluate"`. -/
theorem c4_collect_fanout (cfg : PlaybookConfig) :
    ∀ s ∈ buildInstanceSteps cfg,
      (s.id = "collect" →
        s.next = some (if enrichIds cfg.enrich = [] then NextVal.strVal "evaluate"
          else NextVal.listVal (enrichIds cfg.enrich))) ∧
      (s.type = "vt_hash_lookup" ∨ s.type = "vt_url_reputation" ∨ s.type = "abuseipdb_lookup" →
        s.next = some (NextVal.strVal "evaluate")) := by
  intro s hs
  obtain ⟨n, c, ⟨evh, evu, ea⟩, cond, acts⟩ := cfg
  cases evh <;> cases evu <;> cases ea <;>
    simp only [buildInstanceSteps, enrichSteps, enrichIds, if_true, if_false,
      Bool.false_eq_true, List.nil_append, List.append_nil, List.cons_append,
      List.mem_cons, List.mem_append, List.mem_singleton, List.not_mem_nil,
      or_false, false_or] at hs <;>
    (rcases hs with rfl | rfl | rfl | rfl | rfl | rfl | rfl) <;>
    constructor <;> intro h <;> simp_all [enrichIds, List.isEmpty]

/-- Witness for C4 (amended) at the two-flag configuration's collect step. -/
theorem c4_collect_fanout_witness :
    (enrichIds cfgTwoEnrich.enrich = ["vt_hash", "vt_url"]) ∧
    ((buildInstanceSteps cfgTwoEnrich).head?.map (fun s => s.next) =
      some (some (NextVal.listVal ["vt_hash", "vt_url"]))) ∧
    ∀ s ∈ buildInstanceSteps cfgTwoEnrich,
      (s.id = "collect" →
        s.next = some (if enrichIds cfgTwoEnrich.enrich = [] then NextVal.strVal "evaluate"
          else NextVal.listVal (enrichIds cfgTwoEnrich.enrich))) ∧
      (s.type = "vt_hash_lookup" ∨ s.type = "vt_url_reputation" ∨ s.type = "abuseipdb_lookup" →
        s.next = some (NextVal.strVal "evaluate")) :=
  ⟨rfl, rfl, c4_collect_fanout cfgTwoEnrich⟩

/-!
## YAML serializer — src/pages/PlaybookBuilder.tsx, convertToYaml

The serializer walks the nested value; array items re-indent the item's
rendered lines by stripping any leading run of two-or-more spaces
(the `replace(/^  +/, ...)` of the source) and prefixing the fixed item
indentation, and drop blank lines.  It is fuelled like the evaluators
above so that closed computations reduce by `rfl`.
-/

/-- `"  ".repeat(indent)`. -/
def indentStr (n : Nat) : String := ⟨List.replicate (2 * n) ' '⟩

/-- `s.split("\n")` on character lists. -/
def splitLinesChars : List Char → List (List Char)
  | [] => [[]]
  | c :: rest =>
      match splitLinesChars rest with
      | [] => [[c]]
      | h :: t => if c = '\n' then [] :: h :: t else (c :: h) :: t

/-- `s.split("\n")`. -/
def splitLinesStr (s : String) : List String :=
  (splitLinesChars s.data).map (fun l => (⟨l⟩ : String))

/-- `lines.join("\n")`. -/
def joinWithNewline : List String → String
  | [] => ""
  | [x] => x
  | x :: y :: rest => x ++ "\n" ++ joinWithNewline (y :: rest)

/-- `line.replace(/^  +/, "")`: strip the whole leading space run when it
has length at least two. -/
def stripLead2 (l : String) : String :=
  match l.data with
  | ' ' :: ' ' :: _ => ⟨l.data.dropWhile (· = ' ')⟩
  | _ => l

/-- `s.replace(/"/g, "\\\"")`. -/
def escapeQuotes (s : String) : String :=
  ⟨s.data.flatMap (fun c => if c = '"' then ['\\', '"'] else [c])⟩

/-- `s.replace(/\n/g, "\\n")`. -/
def escapeNewlines (s : String) : String :=
  ⟨s.data.flatMap (fun c => if c = '\n' then ['\\', 'n'] else [c])⟩

/-- Work item of the fuelled serializer. -/
inductive YamlJob where
  | val (v : JSValue) (indent : Nat)
  | items (xs : List JSValue) (indent : Nat)
  | fields (fs : List (String × JSValue)) (indent : Nat)

/-- The array-item re-indentation of the serializer: keep non-blank lines,
de-indent each by the `^  +` strip, prefix `- ` on the first and two extra
spaces on the rest.  When every line is blank only the dash prefix
(without a newline) is emitted, as in the source. -/
def itemBlock (itemYaml : String) (indent : Nat) : String :=
  let lines := (splitLinesStr itemYaml).filter (fun l => trimString l ≠ "")
  match lines with
  | [] => indentStr indent ++ "- "
  | first :: restLines =>
      indentStr indent ++ "- " ++ stripLead2 first ++ "\n" ++
      String.join (restLines.map (fun l => indentStr indent ++ "  " ++ stripLead2 l ++ "\n"))

/-- One `key: value` line (or block) of the object branch. -/
def yamlFieldLine (recur : JSValue → String) (indent : Nat) (key : String)
    (value : JSValue) : String :=
  match value with
  | .null => indentStr indent ++ key ++ ": null\n"
  | .undefined => indentStr indent ++ key ++ ": null\n"
  | .arr _ => indentStr indent ++ key ++ ":\n" ++ recur value
  | .obj _ => indentStr indent ++ key ++ ":\n" ++ recur value
  | .str s =>
      if strIncludes s "$\x7b" && !strIncludes s "\n" then
        indentStr indent ++ key ++ ": \"" ++ escapeNewlines (escapeQuotes s) ++ "\"\n"
      else if strIncludes s "\n" then
        indentStr indent ++ key ++ ": |\n" ++
          String.join ((splitLinesStr s).map (fun line => indentStr indent ++ "  " ++ line ++ "\n"))
      else if strIncludes s ":" || strIncludes s "|" || strIncludes s "&" ||
          strIncludes s "*" || strIncludes s "#" then
        indentStr indent ++ key ++ ": \"" ++ escapeQuotes s ++ "\"\n"
      else
        indentStr indent ++ key ++ ": " ++ s ++ "\n"
  | prim => indentStr indent ++ key ++ ": " ++ jsToDisplayString prim ++ "\n"

def convertToYamlFuel : Nat → YamlJob → String
  | 0, _ => ""
  | f + 1, .val v indent =>
      match v with
      | .null => ""
      | .undefined => ""
      | .arr xs => convertToYamlFuel f (.items xs indent)
      | .obj fs => convertToYamlFuel f (.fields fs indent)
      | prim => jsToDisplayString prim ++ "\n"
  | _ + 1, .items [] _ => ""
  | f + 1, .items (x :: rest) indent =>
      (match x with
       | .arr _ =>
          itemBlock (convertToYamlFuel f (.val x (indent + 1))) indent
       | .obj _ =>
          itemBlock (convertToYamlFuel f (.val x (indent + 1))) indent
       | prim => indentStr indent ++ "- " ++ jsToDisplayString prim ++ "\n") ++
      convertToYamlFuel f (.items rest indent)
  | _ + 1, .fields [] _ => ""
  | f + 1, .fields ((key, value) :: rest) indent =>
      yamlFieldLine (fun v => convertToYamlFuel f (.val v (indent + 1))) indent key value ++
      convertToYamlFuel f (.fields rest indent)

/-- src/pages/PlaybookBuilder.tsx, convertToYaml. -/
def convertToYaml (v : JSValue) (indent : Nat) : String :=
  convertToYamlFuel jsFuel (.val v indent)

/-- The serialized step object, with keys in source insertion order and
absent keys omitted. -/
def playbookStepToJS (s : PlaybookStep) : JSValue :=
  .obj
    ([("id", .str s.id), ("type", .str s.type), ("params", s.params)] ++
      (match s.next with
       | some (.strVal x) => [("next", .str x)]
       | some (.listVal xs) => [("next", .arr (xs.map JSValue.str))]
       | none => []) ++
      (match s.true_next with | some x => [("true_next", JSValue.str x)] | none => []) ++
      (match s.false_next with | some x => [("false_next", JSValue.str x)] | none => []))

/-- src/pages/PlaybookBuilder.tsx, generateInstanceYaml: assemble the steps
and serialize `{name, steps}`. -/
def generateInstanceYaml (config : PlaybookConfig) : String :=
  convertToYaml
    (.obj
      [("name", .str (if config.name = "" then "Untitled Playbook" else config.name)),
       ("steps", .arr ((buildInstanceSteps config).map playbookStepToJS))]) 0

/-!
## Template anonymizer — src/pages/PlaybookBuilder.tsx, generateTemplateYaml

The anonymizer runs four global regex-replace passes over the serialized
text (emails, URLs, IPv4 addresses, hex hashes) and then a line pass that
blanks known mapping-field values and quoted strings.  Each JavaScript
regex is compiled here into a character-level matcher with the same
backtracking behaviour; a generic scanner replays `String.replace` with a
global regex: scan left to right, replace each match, resume after it,
with the replacement callback reading its context from the pass's original
input at absolute offsets.
-/

/-- JavaScript `\w`. -/
def isWordChar (c : Char) : Bool := c.isAlpha || c.isDigit || c = '_'

/-- The email local-part class `[A-Za-z0-9._%+-]`. -/
def isEmailLocalChar (c : Char) : Bool :=
  c.isAlpha || c.isDigit || c = '.' || c = '_' || c = '%' || c = '+' || c = '-'

/-- The email domain class `[A-Za-z0-9.-]`. -/
def isEmailDomainChar (c : Char) : Bool :=
  c.isAlpha || c.isDigit || c = '.' || c = '-'

/-- The hash class `[A-Fa-f0-9]`. -/
def isHexChar (c : Char) : Bool :=
  c.isDigit || ('a' ≤ c && c ≤ 'f') || ('A' ≤ c && c ≤ 'F')

/-- Is the character at local index `i` of the suffix a word character?
(`\b` against the end of input counts as a boundary.) -/
def isWordAt (l : List Char) (i : Nat) : Bool :=
  match l.get? i with
  | some c => isWordChar c
  | none => false

/-- The JavaScript word boundary `\b` between a previous character
(`none` at the start of input) and the head of the suffix. -/
def boundaryHere (prev : Option Char) (l : List Char) : Bool :=
  (match prev with | some c => isWordChar c | none => false) !=
  (match l with | c :: _ => isWordChar c | [] => false)

/-- `l[a..b)`, clamped (Nat subtraction models the `Math.max(0, ·)` of the
callbacks). -/
def sliceChars (l : List Char) (a b : Nat) : List Char := (l.drop a).take (b - a)

/-- `String.prototype.lastIndexOf` for a pattern: the last start index of
an occurrence, `none` for the JavaScript −1. -/
def lastIndexGo (pat : List Char) : List Char → Nat → Option Nat → Option Nat
  | [], _, best => best
  | c :: rest, i, best =>
      lastIndexGo pat rest (i + 1) (if leadsWith pat (c :: rest) then some i else best)

def lastIndexOfSub (pat l : List Char) : Option Nat := lastIndexGo pat l 0 none

/-- Generic global-replace scanner, replaying `String.replace` with a
global regex: scan left to right; `matchAt prev suffix` yields the length
of a match starting at the head of the suffix (`prev` carries the
preceding character for `\b`), `repl i len` its replacement, computed by
the callbacks from the pass's original input at absolute offsets.  After a
match the scan resumes behind it.  No regex of the anonymizer admits empty
matches. -/
def scanGo (matchAt : Option Char → List Char → Option Nat)
    (repl : Nat → Nat → List Char) :
    Nat → Option Char → List Char → Nat → List Char
  | 0, _, _, _ => []
  | _ + 1, _, [], _ => []
  | f + 1, prev, c :: rest, i =>
      match matchAt prev (c :: rest) with
      | some len =>
          if len = 0 then c :: scanGo matchAt repl f (some c) rest (i + 1)
          else
            repl i len ++
              scanGo matchAt repl f ((c :: rest).get? (len - 1))
                ((c :: rest).drop len) (i + len)
      | none => c :: scanGo matchAt repl f (some c) rest (i + 1)

/-- `[A-Za-z]{2,}\b` with the greedy quantifier's backtracking: try the
candidate letter count, then shorter ones, needing a non-word character
(or the end) right after the letters.  `rest₂` starts at the first letter. -/
def emailAlphaTry (rest₂ : List Char) : Nat → Option Nat
  | 0 => none
  | 1 => none
  | a + 2 =>
      if !isWordAt rest₂ (a + 2) then some (a + 2)
      else emailAlphaTry rest₂ (a + 1)

/-- One candidate split of the domain tail (which starts right after the
`@`): a domain part of length `k`, a dot, then at least two letters up to
a word boundary; yields the length matched within the tail. -/
def emailTailTry (tail : List Char) (k : Nat) : Option Nat :=
  match tail.drop k with
  | '.' :: rest₂ =>
      (emailAlphaTry rest₂ ((rest₂.takeWhile Char.isAlpha).length)).map
        (fun a => k + 1 + a)
  | _ => none

/-- Backtracking over the greedy `[A-Za-z0-9.-]+`: candidate domain-part
lengths descending. -/
def emailDomainSearch (tail : List Char) : Nat → Option Nat
  | 0 => none
  | k + 1 =>
      match emailTailTry tail (k + 1) with
      | some r => some r
      | none => emailDomainSearch tail k

/-- A match of `/\b[A-Za-z0-9._%+-]+@[A-Za-z0-9.-]+\.[A-Za-z]{2,}\b/` at
the head of the suffix (match length). -/
def emailMatchAt (prev : Option Char) (l : List Char) : Option Nat :=
  if boundaryHere prev l then
    let L := (l.takeWhile isEmailLocalChar).length
    if L = 0 then none
    else
      match l.drop L with
      | '@' :: tail =>
          (emailDomainSearch tail ((tail.takeWhile isEmailDomainChar).length - 1)).map
            (fun t => L + 1 + t)
      | _ => none
  else none

/-- The email replacement callback (PlaybookBuilder lines 1109-1121):
look 20 characters back in the pass's original input, lower-cased;
sender/from context maps to the sender placeholder, recipient/to context
to the recipient placeholder, and anything else defaults to sender. -/
def emailRepl (orig : List Char) (i : Nat) (_len : Nat) : List Char :=
  let lowered := (sliceChars orig (i - 20) i).map Char.toLower
  if containsSeq "sender".data lowered || containsSeq "from".data lowered then
    "$\x7balert.result.sender\x7d".data
  else if containsSeq "recipient".data lowered || containsSeq "to".data lowered then
    "$\x7balert.result.recipient\x7d".data
  else "$\x7balert.result.sender\x7d".data

def emailPass (s : String) : String :=
  ⟨scanGo emailMatchAt (emailRepl s.data) jsFuel none s.data 0⟩

/-- The shared guard of the URL/IP/hash callbacks (PlaybookBuilder lines
1125-1193): keep the match when the 20-character lookbehind has an
unclosed `$\x7b` and no `\x7d` follows within 10 characters, or when the
lookbehind contains a path segment `steps.`/`alert.`; otherwise emit the
placeholder. -/
def iocGuardRepl (orig : List Char) (placeholder : List Char) (i len : Nat) : List Char :=
  let before := sliceChars orig (i - 20) i
  let after := sliceChars orig (i + len) (min orig.length (i + len + 10))
  let lastOpen := lastIndexOfSub "$\x7b".data before
  let lastClose := lastIndexOfSub "\x7d".data before
  let insideExpr :=
    match lastOpen, lastClose with
    | some o, some c => decide (o > c)
    | some _, none => true
    | none, _ => false
  if insideExpr && !containsSeq "\x7d".data after then sliceChars orig i (i + len)
  else if containsSeq "steps.".data before || containsSeq "alert.".data before then
    sliceChars orig i (i + len)
  else placeholder

/-- A match of `/https?:\/\/[^\s"'`]+/` at the head of the suffix. -/
def urlMatchAt (_prev : Option Char) (l : List Char) : Option Nat :=
  let proto : Option Nat :=
    if leadsWith "https://".data l then some 8
    else if leadsWith "http://".data l then some 7
    else none
  match proto with
  | some p =>
      let n := ((l.drop p).takeWhile
        (fun c => !(isWSChar c || c = '"' || c = '\'' || c = Char.ofNat 96))).length
      if n = 0 then none else some (p + n)
  | none => none

def urlPass (s : String) : String :=
  ⟨scanGo urlMatchAt (iocGuardRepl s.data "$\x7balert.result.urls\x7d".data)
    jsFuel none s.data 0⟩

/-- The dotted-quad groups after the first: `(\.\d{1,3}){3}` and the final
`\b`, on the suffix after the already-consumed digits (extra length
matched).  A digit run longer than three can never satisfy the pattern
(every backtracked shorter run is followed by a digit). -/
def ipGroups : List Char → Nat → Option Nat
  | l, 0 =>
      match l with
      | c :: _ => if isWordChar c then none else some 0
      | [] => some 0
  | '.' :: rest, g + 1 =>
      let r := (rest.takeWhile Char.isDigit).length
      if 1 ≤ r && r ≤ 3 then (ipGroups (rest.drop r) g).map (fun t => t + 1 + r)
      else none
  | _, _ + 1 => none

/-- A match of `/\b\d{1,3}(\.\d{1,3}){3}\b/` at the head of the suffix. -/
def ipMatchAt (prev : Option Char) (l : List Char) : Option Nat :=
  if boundaryHere prev l then
    let r := (l.takeWhile Char.isDigit).length
    if 1 ≤ r && r ≤ 3 then (ipGroups (l.drop r) 3).map (fun t => r + t)
    else none
  else none

def ipPass (s : String) : String :=
  ⟨scanGo ipMatchAt (iocGuardRepl s.data "$\x7balert.result.src_ip\x7d".data)
    jsFuel none s.data 0⟩

/-- A match of `/\b[A-Fa-f0-9]{32,64}\b/` at the head of the suffix: the
maximal hex run must have length 32 to 64 and end at a word boundary (a
longer run can never match, every backtracked endpoint being followed by a
hex word character). -/
def hashMatchAt (prev : Option Char) (l : List Char) : Option Nat :=
  if boundaryHere prev l then
    let r := (l.takeWhile isHexChar).length
    if 32 ≤ r && r ≤ 64 && !isWordAt l r then some r else none
  else none

def hashPass (s : String) : String :=
  ⟨scanGo hashMatchAt
    (iocGuardRepl s.data "$\x7balert.result.attachment_hashes\x7d".data) jsFuel none s.data 0⟩

/-- The key alternation of the mapping-line regex, in source order. -/
def mappingKeys : List String :=
  ["sender", "recipient", "subject", "text", "comment", "message", "description",
   "summary", "hashes", "urls", "ip"]

/-- A match of `/^(\s+)(sender|recipient|…|ip):\s+(.+)$/` against a whole
line: leading whitespace, a known key, a colon, then at least one
whitespace character followed by at least one further character (the
greedy `\s+` backtracks to leave the `.+` group non-empty; the blanked
output does not depend on the captured value). -/
def matchMappingLine (line : List Char) : Option (List Char × String) :=
  let ws := line.takeWhile isWSChar
  if ws.isEmpty then none
  else
    let rest := line.drop ws.length
    match mappingKeys.find? (fun k => leadsWith (k ++ ":").data rest) with
    | some k =>
        match rest.drop (k.length + 1) with
        | c :: _ :: _ => if isWSChar c then some (ws, k) else none
        | _ => none
    | none => none

/-- Everything between a quote pair: `some (content, rest)` when a closing
quote exists. -/
def splitAtQuote : List Char → Option (List Char × List Char)
  | [] => none
  | '"' :: rest => some ([], rest)
  | c :: rest =>
      match splitAtQuote rest with
      | some (content, r₂) => some (c :: content, r₂)
      | none => none

/-- The `/"([^"]*)"/g` replacement of the line pass: quoted content that is
an expression or placeholder survives, anything else (blank included)
becomes an empty quoted string. -/
def quotedPass : Nat → List Char → List Char
  | 0, _ => []
  | _ + 1, [] => []
  | f + 1, '"' :: rest =>
      (match splitAtQuote rest with
       | some (content, r₂) =>
          (if containsSeq "$\x7b".data content || containsSeq "alert.".data content ||
              containsSeq "steps.".data content then
            '"' :: (content ++ ['"'])
           else ['"', '"']) ++ quotedPass f r₂
       | none => '"' :: quotedPass f rest)
  | f + 1, c :: rest => c :: quotedPass f rest

/-- One line of the structural pass (PlaybookBuilder lines 1198-1237):
expression-bearing lines survive verbatim, known mapping-field lines are
blanked to an empty quoted value, and on remaining lines every quoted
string is blanked. -/
def processLine (line : String) : String :=
  if strIncludes line "$\x7b" || strIncludes line "alert." || strIncludes line "steps." then
    line
  else
    match matchMappingLine line.data with
    | some (ws, k) => (⟨ws⟩ : String) ++ k ++ ": \"\""
    | none => ⟨quotedPass jsFuel line.data⟩

/-- The per-line structural pass: split on newlines, process, re-join. -/
def linePass (s : String) : String :=
  joinWithNewline ((splitLinesStr s).map processLine)

/-- src/pages/PlaybookBuilder.tsx, generateTemplateYaml: falsy input yields
the empty string, any other input is coerced with `String(·)`; a blank
text yields the empty string; otherwise the email, URL, IP and hash passes
run in that order, followed by the line pass. -/
def generateTemplateYaml (instanceYaml : JSValue) : String :=
  if !truthy instanceYaml then ""
  else
    let templateYaml :=
      match instanceYaml with
      | .str s => s
      | w => jsToDisplayString w
    if trimString templateYaml = "" then ""
    else linePass (hashPass (ipPass (urlPass (emailPass templateYaml))))

/-!
### Serializer/anonymizer theorems (C5, C9)
-/

/-- A configuration whose serialized instance carries the literal address
attacker@evil.com both as the plain scalar of the `sender:` mapping line
and inside an already-present expression. -/
def cfgAnon : PlaybookConfig :=
  { name := "Phish",
    collect :=
      { sender := "attacker@evil.com", recipient := "", subject := "Hello there",
        urls := "", attachment_hashes := "", src_ip := "" },
    enrich := { vt_hash := false, vt_url := false, abuseipdb_geoip := false },
    condition := { expression := "$\x7bsteps.collect.sender == \"attacker@evil.com\"\x7d" },
    actions := { trueActions := [], falseActions := [] } }

/-- The anonymized template of `cfgAnon`'s instance. -/
def anonTemplateExpected : String :=
  "name: Phish\nsteps:\n  - id: collect\n    type: collect_normalize\n    params:\n    mapping:\n    sender: $\x7balert.result.sender\x7d\n    subject: \"\"\n    next: evaluate\n  - id: evaluate\n    type: condition\n    params:\n    expression: \"$\x7bsteps.collect.sender == \\\"$\x7balert.result.sender\x7d\\\"\x7d\"\n    true_next: high\n    false_next: low\n  - id: high\n    type: action_group\n    params:\n    actions:\n  - id: low\n    type: action_group\n    params:\n    actions:\n"

/-- C5 counterexample: the instance does carry the literal email as the
plain scalar of its `sender:` mapping line, yet the template neither
blanks that line to an empty quoted string nor leaves the second
occurrence (inside the already-present expression) verbatim — the address
is gone from the template altogether. -/
theorem c5_sender_line_counterexample :
    strIncludes (generateInstanceYaml cfgAnon) "sender: attacker@evil.com" = true ∧
    strIncludes (generateTemplateYaml (.str (generateInstanceYaml cfgAnon))) "sender: \"\"" = false ∧
    strIncludes (generateTemplateYaml (.str (generateInstanceYaml cfgAnon))) "attacker@evil.com" = false :=
  ⟨by rfl, by rfl, by rfl⟩

/-- C5 (amended): the email pass runs before the mapping-line blanking and
has no inside-expression guard, so a literal address in a `sender:` line
becomes the placeholder (the line then survives the blanking pass), an
address inside an already-present expression is likewise replaced by the
placeholder, and mapping-field lines whose plain scalar carries no IOC
(here `subject:`) are blanked to an empty quoted string. -/
theorem c5_anonymizer_behaviour :
    generateTemplateYaml (.str (generateInstanceYaml cfgAnon)) = anonTemplateExpected ∧
    strIncludes anonTemplateExpected "sender: $\x7balert.result.sender\x7d" = true ∧
    strIncludes anonTemplateExpected "subject: \"\"" = true :=
  ⟨by rfl, by rfl, by rfl⟩

/-- C9 counterexample: a numeric input is coerced and serialized, not
mapped to the empty string: the serializer renders the scalar line `42`
and the anonymizer returns the coerced text `42`. -/
theorem c9_nonstring_counterexample :
    convertToYaml (.num 42) 0 = "42\n" ∧ ("42\n" : String) ≠ "" ∧
    generateTemplateYaml (.num 42) = "42" ∧ ("42" : String) ≠ "" :=
  ⟨by rfl, by decide, by rfl, by decide⟩

/-- C9 (amended): `null` and `undefined` (and for the anonymizer every
falsy or blank input) yield the empty string, while other non-string
inputs are coerced with `String(·)` and processed normally; both functions
are total — no input raises. -/
theorem c9_nullish_inputs_empty :
    convertToYaml .null 0 = "" ∧ convertToYaml .undefined 0 = "" ∧
    generateTemplateYaml .null = "" ∧ generateTemplateYaml .undefined = "" ∧
    generateTemplateYaml (.str "") = "" ∧
    generateTemplateYaml (.str "   ") = "" ∧
    generateTemplateYaml (.obj []) = "[object Object]" ∧
    convertToYaml (.num 42) 0 = "42\n" ∧
    generateTemplateYaml (.num 42) = "42" :=
  ⟨by rfl, by rfl, by rfl, by rfl, by rfl, by rfl, by rfl, by rfl, by rfl⟩

/-!
## Unified expression evaluator —
src/pages/PlaybookBuilder.tsx, evaluateExpressionUnified

Steps of the source: trim; strip one optional enclosing dollar-brace
wrapper; rewrite bare `steps.` references into wrapped form when no
wrapped reference is present; substitute every wrapped `steps.` reference
from the steps context (a missing path substitutes the literal `null` and
records the variable and a disabled-enrichment hint); fail on remaining
wrapped tokens or surviving bare references; finally evaluate the
substituted text.  The final evaluation runs through the JavaScript
engine (`Function`), which is outside the repository; it is therefore a
parameter here, and `jsEvalLit` below instantiates it for the documented
literal grammar.
-/

/-- The literal brace characters (kept out of string literals). -/
def lbrace : Char := Char.ofNat 123

def rbrace : Char := Char.ofNat 125

/-- The class `[\w.]` of the bare-reference path. -/
def isWordOrDot (c : Char) : Bool := isWordChar c || c = '.'

/-- Split a character list on a separator character. -/
def splitOnChar (sep : Char) : List Char → List (List Char)
  | [] => [[]]
  | c :: rest =>
      match splitOnChar sep rest with
      | [] => [[c]]
      | h :: t => if c = sep then [] :: h :: t else (c :: h) :: t

/-- `parts.join(", ")`. -/
def joinComma : List String → String
  | [] => ""
  | [x] => x
  | x :: y :: r => x ++ ", " ++ joinComma (y :: r)

/-- Step 1: the `/^\$\{(.+)\}$/` wrapper strip.  The dot class excludes
line terminators, so a wrapper whose body spans lines does not match and
nothing is stripped. -/
def stripWrapper (s : String) : String :=
  match s.data with
  | '$' :: c :: rest =>
      if c = lbrace then
        match rest.reverse with
        | last :: midRev =>
            if last = rbrace && midRev ≠ [] &&
                midRev.all (fun ch => ch ≠ '\n' && ch ≠ '\r') then
              (⟨midRev.reverse⟩ : String)
            else s
        | [] => s
      else s
  | _ => s

/-- Step 2 test `/\bsteps\.\w+/`: a word boundary, the literal `steps.`,
then at least one word character. -/
def hasBareStepsAux : Option Char → List Char → Bool
  | _, [] => false
  | prev, c :: rest =>
      (boundaryHere prev (c :: rest) && leadsWith "steps.".data (c :: rest) &&
        isWordAt (c :: rest) 6) ||
      hasBareStepsAux (some c) rest

def hasBareSteps (s : String) : Bool := hasBareStepsAux none s.data

/-- Step 2 rewrite `/\bsteps\.([\w.]+)/g → "${steps.$1}"`: wrap each bare
reference, the path being the greedy run of `[\w.]` characters. -/
def wrapBareAux : Nat → Option Char → List Char → List Char
  | 0, _, _ => []
  | _ + 1, _, [] => []
  | f + 1, prev, c :: rest =>
      if boundaryHere prev (c :: rest) && leadsWith "steps.".data (c :: rest) &&
          (match (c :: rest).drop 6 with
           | d :: _ => isWordOrDot d
           | [] => false) then
        let path := ((c :: rest).drop 6).takeWhile isWordOrDot
        let matchLen := 6 + path.length
        '$' :: lbrace :: ("steps.".data ++ path ++ [rbrace]) ++
          wrapBareAux f ((c :: rest).get? (matchLen - 1)) ((c :: rest).drop matchLen)
      else c :: wrapBareAux f (some c) rest

def wrapBareSteps (s : String) : String := ⟨wrapBareAux s.data.length none s.data⟩

/-- The step-2 rewrite as guarded in the source: rewrite only when a bare
reference exists and no wrapped `steps.` reference does. -/
def normalizeBareRefs (s : String) : String :=
  if hasBareSteps s && !strIncludes s "$\x7bsteps." then wrapBareSteps s else s

/-- A wrapped variable token `${steps.<path>}` at the head of the list:
`some (path, rest-after-token)`. -/
def varTokenAt : List Char → Option (List Char × List Char)
  | '$' :: c :: rest =>
      if c = lbrace && leadsWith "steps.".data rest then
        let path := (rest.drop 6).takeWhile isWordOrDot
        if path.isEmpty then none
        else
          match (rest.drop 6).drop path.length with
          | d :: restAfter => if d = rbrace then some (path, restAfter) else none
          | [] => none
      else none
  | _ => none

/-- The full text of a wrapped variable token with the given path. -/
def varTokenStr (path : List Char) : String :=
  ⟨'$' :: lbrace :: ("steps.".data ++ path ++ [rbrace])⟩

/-- Work item of the fuelled `JSON.stringify`. -/
inductive JsonJob where
  | val (v : JSValue)
  | elems (xs : List JSValue)
  | fields (fs : List (String × JSValue))

/-- A JSON string literal with the standard escapes used here. -/
def jsonQuote (s : String) : String :=
  "\"" ++
    (⟨s.data.flatMap (fun c =>
      if c = '"' then ['\\', '"']
      else if c = '\\' then ['\\', '\\']
      else if c = '\n' then ['\\', 'n']
      else if c = '\r' then ['\\', 'r']
      else if c = '\t' then ['\\', 't']
      else [c])⟩ : String) ++ "\""

/-- Fuelled `JSON.stringify`: `undefined` array elements render as `null`,
`undefined`-valued object fields are dropped. -/
def jsonFuelGo : Nat → JsonJob → String
  | 0, _ => ""
  | f + 1, .val v =>
      match v with
      | .null => "null"
      | .undefined => "null"
      | .bool b => if b then "true" else "false"
      | .num n => toString n
      | .str s => jsonQuote s
      | .arr xs => "[" ++ jsonFuelGo f (.elems xs) ++ "]"
      | .obj fs => "\x7b" ++ jsonFuelGo f (.fields fs) ++ "\x7d"
  | _ + 1, .elems [] => ""
  | f + 1, .elems [x] => jsonFuelGo f (.val x)
  | f + 1, .elems (x :: y :: rest) =>
      jsonFuelGo f (.val x) ++ "," ++ jsonFuelGo f (.elems (y :: rest))
  | _ + 1, .fields [] => ""
  | f + 1, .fields ((_, .undefined) :: rest) => jsonFuelGo f (.fields rest)
  | f + 1, .fields ((k, v) :: rest) =>
      jsonQuote k ++ ":" ++ jsonFuelGo f (.val v) ++
        (if rest.any (fun kv => match kv.2 with | .undefined => false | _ => true)
         then "," else "") ++
        jsonFuelGo f (.fields rest)

def jsonStringify (v : JSValue) : String := jsonFuelGo jsFuel (.val v)

/-- The per-value replacement text of the substitution callback
(PlaybookBuilder lines 69-80). -/
def jsReplValue : JSValue → String
  | .bool b => if b then "true" else "false"
  | .num n => toString n
  | .str s => jsonStringify (.str s)
  | .null => "null"
  | .undefined => "null"
  | v => jsonStringify v

/-- The path walk of the substitution (PlaybookBuilder lines 46-65): every
segment needs a truthy object-typed value owning the key; `none` reports
the variable unresolved. -/
def walkSubst : JSValue → List String → Option JSValue
  | v, [] => some v
  | v, p :: rest =>
      if truthy v && isObjectType v && jsHasKey v p then walkSubst (jsGet v p) rest
      else none

/-- The disabled-enrichment hint for the first path segment
(PlaybookBuilder lines 54-61). -/
def enrichHint (cfg : EnrichConfig) (seg : String) : List String :=
  if seg = "vt_hash" && !cfg.vt_hash then ["VirusTotal Hash lookup"]
  else if seg = "vt_url" && !cfg.vt_url then ["VirusTotal URL reputation"]
  else if seg = "abuseipdb" && !cfg.abuseipdb_geoip then ["AbuseIPDB / GeoIP"]
  else []

/-- Result of the step-3 substitution: the substituted text and the
`missingVars`/`replacedVars`/`missingEnrichSteps` accumulators, in match
order. -/
structure SubstResult where
  out : List Char
  missing : List String
  replaced : List String
  hints : List String

/-- The step-3 global replace of `/\$\{steps\.([\w.]+)\}/g`: a resolved
path substitutes its value's replacement text, an unresolved one the
literal `null`. -/
def substAux (steps : JSValue) (cfg : EnrichConfig) : Nat → List Char → SubstResult
  | 0, _ => ⟨[], [], [], []⟩
  | _ + 1, [] => ⟨[], [], [], []⟩
  | f + 1, c :: rest =>
      match varTokenAt (c :: rest) with
      | some (path, restAfter) =>
          let segs := (splitOnChar '.' path).map (fun l => (⟨l⟩ : String))
          let tail := substAux steps cfg f restAfter
          match walkSubst steps segs with
          | some v =>
              ⟨(jsReplValue v).data ++ tail.out, tail.missing,
                varTokenStr path :: tail.replaced, tail.hints⟩
          | none =>
              ⟨"null".data ++ tail.out, varTokenStr path :: tail.missing,
                tail.replaced, enrichHint cfg (segs.headD "") ++ tail.hints⟩
      | none =>
          let tail := substAux steps cfg f rest
          ⟨c :: tail.out, tail.missing, tail.replaced, tail.hints⟩

def substPass (steps : JSValue) (cfg : EnrichConfig) (s : String) : SubstResult :=
  substAux steps cfg s.data.length s.data

/-- Step 4 scan: the wrapped `steps.` tokens remaining in the substituted
text. -/
def findWrappedAux : Nat → List Char → List String
  | 0, _ => []
  | _ + 1, [] => []
  | f + 1, c :: rest =>
      match varTokenAt (c :: rest) with
      | some (path, restAfter) => varTokenStr path :: findWrappedAux f restAfter
      | none => findWrappedAux f rest

def findWrappedVars (s : String) : List String := findWrappedAux s.data.length s.data

/-- Step 5 scan `/\bsteps\.\w+/g`: surviving bare references. -/
def findBareAux : Nat → Option Char → List Char → List String
  | 0, _, _ => []
  | _ + 1, _, [] => []
  | f + 1, prev, c :: rest =>
      if boundaryHere prev (c :: rest) && leadsWith "steps.".data (c :: rest) &&
          isWordAt (c :: rest) 6 then
        let w := ((c :: rest).drop 6).takeWhile isWordChar
        let matchLen := 6 + w.length
        ("steps." ++ (⟨w⟩ : String)) ::
          findBareAux f ((c :: rest).get? (matchLen - 1)) ((c :: rest).drop matchLen)
      else findBareAux f (some c) rest

def findBareVars (s : String) : List String := findBareAux s.data.length none s.data

/-- The step-4 diagnostic (PlaybookBuilder lines 85-93). -/
def unresolvedMsg (remaining hints : List String) : String :=
  "Unresolved variables found: " ++ joinComma remaining ++
    ". These variables may not be available in the test data." ++
    (if hints.isEmpty then ""
     else "\n\nPlease enable the following enrich steps: " ++ joinComma hints)

/-- The step-5 diagnostic (PlaybookBuilder lines 97-101). -/
def invalidFormatMsg (bare : List String) : String :=
  "Invalid variable format: " ++ joinComma bare ++
    ". Variables must use $\x7bsteps.xxx\x7d format."

/-- The step-6 diagnostic (PlaybookBuilder lines 108-112). -/
def evalFailMsg (m ev : String) : String :=
  "Expression evaluation failed: " ++ m ++ ". Evaluated expression: " ++ ev

/-- The two return shapes of the evaluator: the success object with
`result`, `evaluated`, `missingVars`, `replacedVars`, and the failure
object with `error` and `evaluated`. -/
inductive EvalResult where
  | ok (result : JSValue) (evaluated : String) (missing replaced : List String)
  | err (error : String) (evaluated : String)
  deriving Repr

/-- Steps 2-6 on the already-stripped text; error results carry the
current substituted text. -/
def evalAfterStrip (jsEval : String → Except String JSValue) (e₁ : String)
    (steps : JSValue) (cfg : EnrichConfig) : EvalResult :=
  let e₂ := normalizeBareRefs e₁
  let sub := substPass steps cfg e₂
  let evaluated : String := ⟨sub.out⟩
  let remaining := findWrappedVars evaluated
  if !remaining.isEmpty then .err (unresolvedMsg remaining sub.hints) evaluated
  else
    let bare := findBareVars evaluated
    if !bare.isEmpty then .err (invalidFormatMsg bare) evaluated
    else
      match jsEval evaluated with
      | .ok v => .ok v evaluated sub.missing sub.replaced
      | .error m => .err (evalFailMsg m evaluated) evaluated

/-- The catch-block fallback `evaluated || expression || ""` applied to an
error result (the `expression` argument given here is already known to be
non-empty). -/
def applyFallback (dflt : String) : EvalResult → EvalResult
  | .err m ev => .err m (if ev = "" then dflt else ev)
  | r => r

/-- src/pages/PlaybookBuilder.tsx, evaluateExpressionUnified, with the
final `Function`-based evaluation of the substituted literal text as a
parameter (the JavaScript engine is outside the repository). -/
def evaluateExpressionUnifiedWith (jsEval : String → Except String JSValue)
    (expression : String) (steps : JSValue) (cfg : EnrichConfig) : EvalResult :=
  if expression = "" then .err "Expression must be a non-empty string" expression
  else
    applyFallback expression
      (evalAfterStrip jsEval (stripWrapper (trimString expression)) steps cfg)

/-- A full-string integer numeral (optional minus sign, digits only). -/
def parseIntFull (s : String) : Option Int :=
  match s.data with
  | '-' :: ds => if !ds.isEmpty && ds.all (·.isDigit) then
      some (-(ds.foldl (fun a c => a * 10 + (c.toNat - 48)) 0 : Nat)) else none
  | ds => if !ds.isEmpty && ds.all (·.isDigit) then
      some ((ds.foldl (fun a c => a * 10 + (c.toNat - 48)) 0 : Nat) : Int) else none

/-- The JavaScript relational `a < b` (string pairs lexicographic, other
pairs numeric, `NaN` making it false). -/
def jsLt (a b : JSValue) : Bool :=
  match a, b with
  | .str s, .str t => decide (s < t)
  | _, _ =>
      match jsToNumber a, jsToNumber b with
      | some x, some y => decide (x < y)
      | _, _ => false

/-- JavaScript loose equality `==` on the primitive values of the model:
same-type compares strictly, `null`/`undefined` cross-match, other pairs
compare after numeric coercion. -/
def jsLooseEq (a b : JSValue) : Bool :=
  match a, b with
  | .null, .undefined => true
  | .undefined, .null => true
  | .null, _ => jsStrictEq a b
  | _, .null => jsStrictEq a b
  | .undefined, _ => jsStrictEq a b
  | _, .undefined => jsStrictEq a b
  | .num _, .num _ => jsStrictEq a b
  | .str x, .str y => x == y
  | .bool x, .bool y => x == y
  | _, _ =>
      match jsToNumber a, jsToNumber b with
      | some x, some y => x == y
      | _, _ => false

/-- A literal token of the substituted text: `null`, `undefined`,
booleans, integer numerals, double-quoted strings. -/
def parseLit (w : String) : Except String JSValue :=
  if w = "null" then .ok .null
  else if w = "undefined" then .ok .undefined
  else if w = "true" then .ok (.bool true)
  else if w = "false" then .ok (.bool false)
  else
    match w.data with
    | '"' :: rest =>
        if !rest.isEmpty && rest.getLast? = some '"' then .ok (.str ⟨rest.dropLast⟩)
        else .error ("SyntaxError: Unexpected token " ++ w)
    | _ =>
        match parseIntFull w with
        | some n => .ok (.num n)
        | none => .error ("SyntaxError: Unexpected token " ++ w)

/-- Modelled from the spec: the step-6 evaluation of the fully-substituted
text, which the source delegates to the JavaScript engine through
`Function` (code outside this repository).  Following spec sections 4.4
and 9, the restricted grammar is the contract: a single literal, or two
literals joined by a comparison, equality or logical operator, separated
by spaces; anything else is an evaluation error. -/
def jsEvalLit (s : String) : Except String JSValue :=
  let words := ((splitOnChar ' ' s.data).map (fun l => (⟨l⟩ : String))).filter (· ≠ "")
  match words with
  | [w] => parseLit w
  | [a, op, b] => do
      let va ← parseLit a
      let vb ← parseLit b
      match op with
      | ">=" => .ok (.bool (jsLe vb va))
      | "<=" => .ok (.bool (jsLe va vb))
      | ">" => .ok (.bool (jsLt vb va))
      | "<" => .ok (.bool (jsLt va vb))
      | "===" => .ok (.bool (jsStrictEq va vb))
      | "!==" => .ok (.bool (!jsStrictEq va vb))
      | "==" => .ok (.bool (jsLooseEq va vb))
      | "!=" => .ok (.bool (!jsLooseEq va vb))
      | "&&" => .ok (if truthy va then vb else va)
      | "||" => .ok (if truthy va then va else vb)
      | _ => .error ("SyntaxError: Unexpected token " ++ op)
  | _ => .error ("SyntaxError: could not parse " ++ s)

/-- src/pages/PlaybookBuilder.tsx, evaluateExpressionUnified, instantiated
with the literal-grammar evaluator. -/
def evaluateExpressionUnified (expression : String) (steps : JSValue)
    (cfg : EnrichConfig) : EvalResult :=
  evaluateExpressionUnifiedWith jsEvalLit expression steps cfg

/-!
### Expression-evaluator theorems (C1, C7)
-/

/-- C1: on the claim's own test input the evaluator does NOT fail — the
unresolved reference is substituted by the literal `null` during step 3,
so the step-4 check (which scans the post-substitution text) finds
nothing, and evaluation succeeds with `null >= 70`, i.e. `false`.  The
collected `missingVars` and disabled-enrichment hint never reach a
diagnostic. -/
theorem c1_disabled_enrich_evaluates_to_success :
    evaluateExpressionUnified "$\x7bsteps.vt_url.max_score >= 70\x7d" (.obj [])
      ⟨false, false, false⟩ =
      .ok (.bool false) "null >= 70" ["$\x7bsteps.vt_url.max_score\x7d"] [] := by rfl

theorem leadsWith_refl_append (p z : List Char) : leadsWith p (p ++ z) = true := by
  induction p with
  | nil => rfl
  | cons c cs ih => simp [leadsWith, ih]

theorem containsSeq_head {pat l : List Char} (h : leadsWith pat l = true) :
    containsSeq pat l = true := by
  cases l with
  | nil => exact h
  | cons c rest => simp [containsSeq, h]

theorem containsSeq_tail {pat : List Char} {l : List Char} (c : Char)
    (h : containsSeq pat l = true) : containsSeq pat (c :: l) = true := by
  simp [containsSeq, h]

theorem leadsWith_cons (c : Char) (p t : List Char) :
    leadsWith (c :: p) (c :: t) = leadsWith p t := by
  simp [leadsWith]

theorem head?_drop (l : List Char) (n : Nat) : (l.drop n).head? = l.get? n := by
  induction n generalizing l with
  | zero => cases l <;> rfl
  | succ m ih => cases l with
      | nil => rfl
      | cons c rest => exact ih rest

/-- A bare-reference test match implies a rewrite match at the same
position (`\w ⊆ [\w.]`), and wherever the rewrite fires its output starts
with the wrapped prefix; so a rewritten string always contains
`"${steps."`. -/
theorem wrapBare_contains : ∀ (l : List Char) (f : Nat) (prev : Option Char),
    l.length ≤ f → hasBareStepsAux prev l = true →
    containsSeq "$\x7bsteps.".data (wrapBareAux f prev l) = true := by
  intro l
  induction l with
  | nil => intro f prev _ h; simp [hasBareStepsAux] at h
  | cons c rest ih =>
      intro f prev hf h
      cases f with
      | zero => simp at hf
      | succ f₀ =>
          rw [wrapBareAux]
          by_cases hcond :
              (boundaryHere prev (c :: rest) && leadsWith "steps.".data (c :: rest) &&
                (match (c :: rest).drop 6 with
                 | d :: _ => isWordOrDot d
                 | [] => false)) = true
          · rw [if_pos hcond]
            apply containsSeq_head
            have hpat : "$\x7bsteps.".data = '$' :: lbrace :: "steps.".data := rfl
            rw [hpat]
            simp only [List.cons_append, List.append_assoc]
            rw [leadsWith_cons, leadsWith_cons]
            exact leadsWith_refl_append _ _
          · rw [if_neg hcond]
            apply containsSeq_tail
            have hrest : hasBareStepsAux (some c) rest = true := by
              rw [hasBareStepsAux] at h
              rcases Bool.or_eq_true _ _ |>.mp h with htest | htail
              · exfalso
                apply hcond
                have h₁ := (Bool.and_eq_true _ _).mp htest
                have h₂ := (Bool.and_eq_true _ _).mp h₁.1
                rw [h₂.1, h₂.2, Bool.true_and, Bool.true_and]
                have hw : isWordAt (c :: rest) 6 = true := h₁.2
                unfold isWordAt at hw
                cases hd : (c :: rest).drop 6 with
                | nil =>
                    rw [← head?_drop, hd] at hw
                    simp at hw
                | cons d _ =>
                    have hg : (c :: rest).get? 6 = some d := by
                      rw [← head?_drop, hd]; rfl
                    rw [hg] at hw
                    have hw₂ : isWordChar d = true := hw
                    simp [isWordOrDot, hw₂]
              · exact htail
            exact ih f₀ (some c) (Nat.le_of_succ_le_succ hf) hrest

/-- Nonemptiness of the substituted text of the C7 expression: the
substitution replaces the single token and keeps the concrete tail
`" >= 85"`. -/
theorem subst_s0_out_ne (steps : JSValue) (cfg : EnrichConfig) :
    (⟨(substPass steps cfg "$\x7bsteps.abuseipdb.score\x7d >= 85").out⟩ : String) ≠ "" := by
  rw [show substPass steps cfg "$\x7bsteps.abuseipdb.score\x7d >= 85" =
      (match walkSubst steps ["abuseipdb", "score"] with
       | some v =>
          ⟨(jsReplValue v).data ++ " >= 85".data, [],
            ["$\x7bsteps.abuseipdb.score\x7d"], []⟩
       | none =>
          ⟨"null".data ++ " >= 85".data, ["$\x7bsteps.abuseipdb.score\x7d"], [],
            enrichHint cfg "abuseipdb" ++ []⟩) from rfl]
  cases hw : walkSubst steps ["abuseipdb", "score"] with
  | none =>
      intro hc
      have := congrArg String.data hc
      simp at this
  | some v =>
      intro hc
      have := congrArg String.data hc
      simp at this

/-- Every error result of `evalAfterStrip` on the C7 stripped text carries
a non-empty `evaluated` field, so the catch-block fallback to the original
expression is never taken. -/
theorem evalAfterStrip_s0_err_nonempty (jsEval : String → Except String JSValue)
    (steps : JSValue) (cfg : EnrichConfig) :
    ∀ m ev, evalAfterStrip jsEval "steps.abuseipdb.score >= 85" steps cfg = .err m ev →
      ev ≠ "" := by
  intro m ev h
  simp only [evalAfterStrip] at h
  split at h
  · cases h
    exact subst_s0_out_ne steps cfg
  · split at h
    · cases h
      exact subst_s0_out_ne steps cfg
    · split at h
      · cases h
      · cases h
        exact subst_s0_out_ne steps cfg

theorem applyFallback_congr (d₁ d₂ : String) (r : EvalResult)
    (h : ∀ m ev, r = .err m ev → ev ≠ "") : applyFallback d₁ r = applyFallback d₂ r := by
  cases r with
  | ok v ev ms rs => rfl
  | err m ev => simp [applyFallback, h m ev rfl]

/-- C7: evaluating the bare expression and its wrapped form against the
same context yields identical results for every final evaluator, every
steps context and every enrichment configuration; the bare-reference
rewrite is idempotent; and a text containing a wrapped `steps.` reference
is never rewritten (no double wrapping). -/
theorem c7_rewrap_idempotent :
    (∀ (jsEval : String → Except String JSValue) (steps : JSValue) (cfg : EnrichConfig),
        evaluateExpressionUnifiedWith jsEval "steps.abuseipdb.score >= 85" steps cfg =
          evaluateExpressionUnifiedWith jsEval "$\x7bsteps.abuseipdb.score >= 85\x7d" steps cfg) ∧
    (∀ s : String, normalizeBareRefs (normalizeBareRefs s) = normalizeBareRefs s) ∧
    (∀ s : String, strIncludes s "$\x7bsteps." = true → normalizeBareRefs s = s) := by
  refine ⟨?_, ?_, ?_⟩
  · intro jsEval steps cfg
    show applyFallback "steps.abuseipdb.score >= 85"
        (evalAfterStrip jsEval "steps.abuseipdb.score >= 85" steps cfg) =
      applyFallback "$\x7bsteps.abuseipdb.score >= 85\x7d"
        (evalAfterStrip jsEval "steps.abuseipdb.score >= 85" steps cfg)
    exact applyFallback_congr _ _ _ (evalAfterStrip_s0_err_nonempty jsEval steps cfg)
  · intro s
    unfold normalizeBareRefs
    by_cases h₁ : (hasBareSteps s && !strIncludes s "$\x7bsteps.") = true
    · rw [if_pos h₁]
      have hb : hasBareSteps s = true := ((Bool.and_eq_true _ _).mp h₁).1
      have hcont : strIncludes (wrapBareSteps s) "$\x7bsteps." = true :=
        wrapBare_contains s.data s.data.length none (Nat.le_refl _) hb
      rw [if_neg (by simp [hcont])]
    · rw [if_neg h₁, if_neg h₁]
  · intro s h
    simp [normalizeBareRefs, h]

/-- The abuseipdb step-results context of the C7 witness. -/
def ctxAb : JSValue := .obj [("abuseipdb", .obj [("score", .num 90)])]

/-- Witness for C7 at the literal evaluator, a concrete context and
concrete rewrite inputs. -/
theorem c7_rewrap_witness :
    evaluateExpressionUnifiedWith jsEvalLit "steps.abuseipdb.score >= 85" ctxAb
        ⟨false, false, true⟩ =
      evaluateExpressionUnifiedWith jsEvalLit "$\x7bsteps.abuseipdb.score >= 85\x7d" ctxAb
        ⟨false, false, true⟩ ∧
    normalizeBareRefs (normalizeBareRefs "steps.vt_url.max_score >= 70") =
      normalizeBareRefs "steps.vt_url.max_score >= 70" ∧
    strIncludes "$\x7bsteps.a.b\x7d" "$\x7bsteps." = true ∧
    normalizeBareRefs "$\x7bsteps.a.b\x7d" = "$\x7bsteps.a.b\x7d" :=
  ⟨c7_rewrap_idempotent.1 jsEvalLit ctxAb ⟨false, false, true⟩,
    c7_rewrap_idempotent.2.1 _, by rfl, c7_rewrap_idempotent.2.2 _ (by rfl)⟩

end MiniSoar
